import Mathlib

/-
Verification of the Count-Min Sketch of the bloom-filters library
(src/src/count-min-sketch.ts), as a shallow embedding.

JS numbers used as counters are embedded as `ℤ`; the `Infinity` starting
value of `count` is embedded as `⊤` in `WithTop ℤ`.  The matrix is a list
of rows, each row a list of cells, exactly as the source's
`Array<Array<number>>`.
-/

/-- Modelled from the spec: the default seed constant `0x1234567890`
(`utils.getDefaultSeed`, whose file `utils.ts` is not under src/). -/
def getDefaultSeed : ℕ := 0x1234567890

/-- Modelled from the spec: a seeded, deterministic, non-cryptographic
64-bit string hash (spec §4.A `hashTwice`; the XXH64-family hash of
`utils.ts` is not under src/, so any deterministic seeded 64-bit hash is a
faithful model).  Arithmetic is reduced mod 2^64 as for a 64-bit value. -/
def hashStr (s : String) (seed : ℕ) : ℕ :=
  s.data.foldl (fun h ch => (h * 1099511628211 + ch.toNat) % 2 ^ 64)
    ((seed + 14695981039346656037) % 2 ^ 64)

/-- Modelled from the spec: the collision-avoiding loop of
`utils.getDistinctIndices` (spec §4.A): index `i` is drawn as
`(h1 + i·h2) mod range`, with a deterministic tweak (`+ i²`) applied after
a collision; a colliding candidate is skipped and the iteration counter
advances.  The iteration is bounded by explicit fuel, matching the spec's
termination requirement. -/
def distinctIndicesAux (h1 h2 range k : ℕ) : ℕ → ℕ → List ℕ → List ℕ
  | 0, _, acc => acc.reverse
  | fuel + 1, i, acc =>
    if acc.length = k then acc.reverse
    else
      let first := (h1 + i * h2) % range
      let cand := if acc.contains first then (h1 + i * h2 + i * i) % range else first
      if acc.contains cand then distinctIndicesAux h1 h2 range k fuel (i + 1) acc
      else distinctIndicesAux h1 h2 range k fuel (i + 1) (cand :: acc)

/-- Modelled from the spec: `utils.getDistinctIndices(element, range, k, seed)`
(spec §4.A), producing up to `k` distinct indices in `[0, range)` by double
hashing. -/
def getDistinctIndices (element : String) (range k seed : ℕ) : List ℕ :=
  distinctIndicesAux (hashStr element seed) (hashStr element (seed + 1)) range k
    (range * k + k + 1) 0 []

/-- The state of a `CountMinSketch` (src/src/count-min-sketch.ts):
`_columns`, `_rows`, `_matrix`, `_N`, plus the `_seed` field inherited
from `BaseFilter` (BaseFilter is not under src/; modelled from the spec:
every structure carries a mutable 64-bit seed). -/
structure CountMinSketch where
  _columns : ℕ
  _rows : ℕ
  _matrix : List (List ℤ)
  _N : ℤ
  _seed : ℕ
deriving DecidableEq

/-- Modelled from the spec: the `seed` getter of `BaseFilter`. -/
def CountMinSketch.seed (sk : CountMinSketch) : ℕ := sk._seed

/-- Modelled from the spec: the `seed` setter of `BaseFilter`
(`sketch.seed = s`). -/
def withSeed (sk : CountMinSketch) (s : ℕ) : CountMinSketch := { sk with _seed := s }

/-- The constructor `new CountMinSketch(w, d, seed)` (lines 66-72).  The
`seed` parameter is bound but never used by the body, exactly as in the
source; `super()` installs the default seed (BaseFilter modelled from the
spec).  `utils.allocateArray` (not under src/) is modelled as
`List.replicate`. -/
def CountMinSketch.new (w d : ℕ) (seed : ℕ) : CountMinSketch :=
  { _columns := w
    _rows := d
    _matrix := List.replicate d (List.replicate w 0)
    _N := 0
    _seed := getDefaultSeed }

/-- Reading cell `_matrix[i][j]` (missing entries default to 0; all claim
statements restrict attention to in-bounds cells of well-formed sketches). -/
def cell (sk : CountMinSketch) (i j : ℕ) : ℤ :=
  (sk._matrix.getD i []).getD j 0

/-- One step of `this._matrix[i][indexes[i]] += count`: add `c` at
position `j` of a row (no-op when `j` is out of bounds). -/
def updateRow (c : ℤ) : ℕ → List ℤ → List ℤ
  | _, [] => []
  | 0, v :: rest => (v + c) :: rest
  | j + 1, v :: rest => v :: updateRow c j rest

/-- The row loop of `update` (lines 117-119): for each row `i < rows`,
add `c` at column `indexes[i]`; the counter `i0` tracks the row index. -/
def updateMatrix (c : ℤ) (indexes : List ℕ) (rows : ℕ) : ℕ → List (List ℤ) → List (List ℤ)
  | _, [] => []
  | i0, row :: rest =>
    (if i0 < rows then updateRow c (indexes.getD i0 0) row else row) ::
      updateMatrix c indexes rows (i0 + 1) rest

/-- `update(element, count)` (lines 114-120): add `count` to `_N`, then
add `count` to `_matrix[i][indexes[i]]` for every row `i`. -/
def CountMinSketch.update (sk : CountMinSketch) (element : String) (count : ℤ) :
    CountMinSketch :=
  { sk with
    _N := sk._N + count
    _matrix :=
      updateMatrix count (getDistinctIndices element sk._columns sk._rows sk.seed)
        sk._rows 0 sk._matrix }

/-- `count(element)` (lines 127-136): `min` over the rows of
`_matrix[i][indexes[i]]`, starting from `Infinity` (embedded as `⊤`). -/
def CountMinSketch.count (sk : CountMinSketch) (element : String) : WithTop ℤ :=
  (List.range sk._rows).foldl
    (fun m i =>
      min ((cell sk i ((getDistinctIndices element sk._columns sk._rows sk.seed).getD i 0) :
        ℤ) : WithTop ℤ) m) ⊤

/-- The inner column loop of `merge` (line 149):
`this._matrix[i][j] += sketch._matrix[i][j]` for `j < cols`. -/
def mergeRow (orow : List ℤ) (cols : ℕ) : ℕ → List ℤ → List ℤ
  | _, [] => []
  | j0, v :: rest =>
    (if j0 < cols then v + orow.getD j0 0 else v) :: mergeRow orow cols (j0 + 1) rest

/-- The outer row loop of `merge` (lines 147-151). -/
def mergeMatrix (om : List (List ℤ)) (rows cols : ℕ) : ℕ → List (List ℤ) → List (List ℤ)
  | _, [] => []
  | i0, row :: rest =>
    (if i0 < rows then mergeRow (om.getD i0 []) cols 0 row else row) ::
      mergeMatrix om rows cols (i0 + 1) rest

/-- `merge(sketch)` (lines 143-152): throws when the column or row counts
differ, otherwise adds the other matrix cell-wise into the receiver.  The
seed is not compared. -/
def CountMinSketch.merge (sk other : CountMinSketch) : Except String CountMinSketch :=
  if sk._columns ≠ other._columns then
    Except.error ("Cannot merge two sketches with different number of columns")
  else if sk._rows ≠ other._rows then
    Except.error ("Cannot merge two sketches with different number of rows")
  else
    Except.ok
      { sk with _matrix := mergeMatrix other._matrix sk._rows sk._columns 0 sk._matrix }

/-- `clone()` (lines 158-163): build a fresh sketch with the same
dimensions, merge the receiver into it, then copy the seed.  The `merge`
cannot fail here because the fresh sketch has the same dimensions; the
error branch is unreachable. -/
def CountMinSketch.clone (sk : CountMinSketch) : CountMinSketch :=
  match (CountMinSketch.new sk._columns sk._rows getDefaultSeed).merge sk with
  | Except.ok fresh => { fresh with _seed := sk.seed }
  | Except.error _ => { CountMinSketch.new sk._columns sk._rows getDefaultSeed with _seed := sk.seed }

/-- Modelled from the spec: the serialization record of a Count-Min Sketch
(spec §4.I, §6): a `type` tag plus the fields listed in the `Exportable`
decorator (lines 42-43); a field of the payload may be missing (`none`). -/
structure CMSExport where
  type : String
  _matrix : Option (List (List ℤ))
  _seed : Option ℕ
  _N : Option ℤ
  _rows : Option ℕ
  _columns : Option ℕ

/-- Modelled from the spec: `cloneObject('CountMinSketch', '_matrix',
'_seed', '_N', '_rows', '_columns')` (line 43; `export-import-specs` is
not under src/): the export carries the type tag and copies of the listed
fields. -/
def CountMinSketch.saveAsJSON (sk : CountMinSketch) : CMSExport :=
  { type := ("CountMinSketch")
    _matrix := some sk._matrix
    _seed := some sk._seed
    _N := some sk._N
    _rows := some sk._rows
    _columns := some sk._columns }

/-- Modelled from the spec: `assertFields(json, '_matrix', '_seed', '_N',
'_rows', '_columns')` (line 45; `export-import-specs` is not under src/):
true iff every listed field is present. -/
def assertFields (json : CMSExport) : Bool :=
  json._matrix.isSome && json._seed.isSome && json._N.isSome &&
    json._rows.isSome && json._columns.isSome

/-- The import function of the `Exportable` decorator (lines 44-53): fail
when the type tag differs from the expected one or a required field is
missing; otherwise rebuild the sketch from the payload
(`json._matrix.slice()` is a copy, i.e. the same list value). -/
def CountMinSketch.fromJSON (json : CMSExport) : Except String CountMinSketch :=
  match json._matrix, json._seed, json._N, json._rows, json._columns with
  | some m, some s, some n, some r, some c =>
    if json.type = ("CountMinSketch") then
      Except.ok { CountMinSketch.new c r getDefaultSeed with _matrix := m, _N := n, _seed := s }
    else
      Except.error
        ("Cannot create a CountMinSketch from a JSON export which does not represent a count-min sketch")
  | _, _, _, _, _ =>
    Except.error
      ("Cannot create a CountMinSketch from a JSON export which does not represent a count-min sketch")

/-- `create(epsilon, delta)` (lines 81-85): `w = ⌈e/ε⌉`, `d = ⌈ln(1/δ)⌉`.
`Math.E`, `Math.log` and `Math.ceil` are embedded as their exact
real-number counterparts. -/
noncomputable def CountMinSketch.create (epsilon delta : ℝ) : CountMinSketch :=
  CountMinSketch.new (⌈Real.exp 1 / epsilon⌉.toNat) (⌈Real.log (1 / delta)⌉.toNat)
    getDefaultSeed

/-- Well-formedness of a sketch, as established by the constructor for a
positive number of columns: the matrix has `_rows` rows, each of width
`_columns`. -/
def Wf (sk : CountMinSketch) : Prop :=
  0 < sk._columns ∧ sk._matrix.length = sk._rows ∧
    ∀ row ∈ sk._matrix, row.length = sk._columns

instance decidableWf (sk : CountMinSketch) : Decidable (Wf sk) :=
  inferInstanceAs (Decidable (0 < sk._columns ∧ sk._matrix.length = sk._rows ∧
    ∀ row ∈ sk._matrix, row.length = sk._columns))

/-- The index of row `i` for `element`, i.e. `indexes[i]` in `update` and
`count` (a proof-level abbreviation of the expression both use). -/
def idxOf (sk : CountMinSketch) (element : String) (i : ℕ) : ℕ :=
  (getDistinctIndices element sk._columns sk._rows sk.seed).getD i 0

/-- A sequence of `update` calls. -/
def applyUpdates (sk : CountMinSketch) (ops : List (String × ℤ)) : CountMinSketch :=
  ops.foldl (fun s op => s.update op.1 op.2) sk

/-- The exact number of occurrences of `x` in a weighted update sequence. -/
def trueCount (x : String) (ops : List (String × ℤ)) : ℤ :=
  (ops.map fun op => if op.1 = x then op.2 else 0).sum

/-! ### List helper lemmas -/

theorem getD_lt_of_forall {range : ℕ} :
    ∀ (l : List ℕ) (i d : ℕ), (∀ a ∈ l, a < range) → d < range → l.getD i d < range := by
  intro l
  induction l with
  | nil => intro i d _ hd; simpa [List.getD] using hd
  | cons a t ih =>
    intro i d h hd
    cases i with
    | zero => simpa [List.getD] using h a (by simp)
    | succ i =>
      simpa [List.getD] using ih i d (fun b hb => h b (by simp [hb])) hd

theorem getD_mem {α : Type} :
    ∀ (l : List α) (i : ℕ) (d : α), i < l.length → l.getD i d ∈ l := by
  intro l
  induction l with
  | nil => intro i d h; simp at h
  | cons a t ih =>
    intro i d h
    cases i with
    | zero => simp [List.getD]
    | succ i =>
      have := ih i d (by simpa using Nat.lt_of_succ_lt_succ h)
      simp [List.getD] at this ⊢
      exact Or.inr this

theorem getD_replicate {α : Type} (a d : α) :
    ∀ (n i : ℕ), (List.replicate n a).getD i d = if i < n then a else d := by
  intro n
  induction n with
  | zero => intro i; simp [List.getD]
  | succ n ih =>
    intro i
    cases i with
    | zero => simp [List.replicate, List.getD]
    | succ i => simpa [List.replicate, List.getD, Nat.succ_lt_succ_iff] using ih i

/-! ### Bounds for the generated indices -/

theorem distinctIndicesAux_lt (h1 h2 range k : ℕ) (hr : 0 < range) :
    ∀ (fuel i : ℕ) (acc : List ℕ), (∀ a ∈ acc, a < range) →
      ∀ a ∈ distinctIndicesAux h1 h2 range k fuel i acc, a < range := by
  intro fuel
  induction fuel with
  | zero =>
    intro i acc hacc a ha
    rw [distinctIndicesAux] at ha
    exact hacc a (List.mem_reverse.mp ha)
  | succ n ih =>
    intro i acc hacc a ha
    rw [distinctIndicesAux] at ha
    by_cases hk : acc.length = k
    · rw [if_pos hk] at ha
      exact hacc a (List.mem_reverse.mp ha)
    · rw [if_neg hk] at ha
      simp only at ha
      set first := (h1 + i * h2) % range with hfirst
      set cand := if acc.contains first then (h1 + i * h2 + i * i) % range else first
        with hcand
      have hcandlt : cand < range := by
        rw [hcand]
        split
        · exact Nat.mod_lt _ hr
        · exact Nat.mod_lt _ hr
      by_cases hc : acc.contains cand
      · rw [if_pos hc] at ha
        exact ih (i + 1) acc hacc a ha
      · rw [if_neg hc] at ha
        refine ih (i + 1) (cand :: acc) ?_ a ha
        intro b hb
        rcases List.mem_cons.mp hb with hb | hb
        · exact hb ▸ hcandlt
        · exact hacc b hb

theorem getDistinctIndices_getD_lt (e : String) (range k seed i : ℕ) (hr : 0 < range) :
    (getDistinctIndices e range k seed).getD i 0 < range := by
  refine getD_lt_of_forall _ i 0 ?_ hr
  intro a ha
  exact distinctIndicesAux_lt _ _ range k hr _ 0 [] (by simp) a ha

theorem idxOf_lt (sk : CountMinSketch) (x : String) (i : ℕ) (h : 0 < sk._columns) :
    idxOf sk x i < sk._columns :=
  getDistinctIndices_getD_lt x sk._columns sk._rows sk.seed i h

/-! ### updateRow and updateMatrix lemmas -/

theorem updateRow_length (c : ℤ) :
    ∀ (j : ℕ) (row : List ℤ), (updateRow c j row).length = row.length := by
  intro j row
  induction row generalizing j with
  | nil => simp [updateRow]
  | cons v rest ih =>
    cases j with
    | zero => simp [updateRow]
    | succ j => simp [updateRow, ih j]

theorem updateRow_getD_self (c : ℤ) :
    ∀ (j : ℕ) (row : List ℤ), j < row.length →
      (updateRow c j row).getD j 0 = row.getD j 0 + c := by
  intro j row
  induction row generalizing j with
  | nil => intro h; simp at h
  | cons v rest ih =>
    intro h
    cases j with
    | zero => simp [updateRow, List.getD]
    | succ j =>
      simpa [updateRow, List.getD] using ih j (by simpa using Nat.lt_of_succ_lt_succ h)

theorem updateRow_getD_ne (c : ℤ) :
    ∀ (j j' : ℕ) (row : List ℤ), j' ≠ j →
      (updateRow c j row).getD j' 0 = row.getD j' 0 := by
  intro j j' row
  induction row generalizing j j' with
  | nil => intro _; simp [updateRow]
  | cons v rest ih =>
    intro h
    cases j with
    | zero =>
      cases j' with
      | zero => exact absurd rfl h
      | succ j' => simp [updateRow, List.getD]
    | succ j =>
      cases j' with
      | zero => simp [updateRow, List.getD]
      | succ j' =>
        simpa [updateRow, List.getD] using ih j j' (fun hc => h (by rw [hc]))

theorem updateRow_getD_ge (c : ℤ) (hc : 0 ≤ c) :
    ∀ (j j' : ℕ) (row : List ℤ), row.getD j' 0 ≤ (updateRow c j row).getD j' 0 := by
  intro j j' row
  induction row generalizing j j' with
  | nil => simp [updateRow]
  | cons v rest ih =>
    cases j with
    | zero =>
      cases j' with
      | zero => simpa [updateRow, List.getD] using hc
      | succ j' => simp [updateRow, List.getD]
    | succ j =>
      cases j' with
      | zero => simp [updateRow, List.getD]
      | succ j' => simpa [updateRow, List.getD] using ih j j'

theorem updateMatrix_getD (c : ℤ) (indexes : List ℕ) (rows : ℕ) :
    ∀ (m : List (List ℤ)) (i0 i : ℕ),
      (updateMatrix c indexes rows i0 m).getD i [] =
        if i0 + i < rows then updateRow c (indexes.getD (i0 + i) 0) (m.getD i [])
        else m.getD i [] := by
  intro m
  induction m with
  | nil =>
    intro i0 i
    simp only [updateMatrix, List.getD]
    split
    · simp [updateRow]
    · rfl
  | cons row rest ih =>
    intro i0 i
    cases i with
    | zero => simp [updateMatrix, List.getD]
    | succ i =>
      have harith : i0 + 1 + i = i0 + (i + 1) := by omega
      simpa [updateMatrix, List.getD, harith] using ih (i0 + 1) i

theorem updateMatrix_length (c : ℤ) (indexes : List ℕ) (rows : ℕ) :
    ∀ (m : List (List ℤ)) (i0 : ℕ), (updateMatrix c indexes rows i0 m).length = m.length := by
  intro m
  induction m with
  | nil => intro i0; simp [updateMatrix]
  | cons row rest ih => intro i0; simp [updateMatrix, ih (i0 + 1)]

theorem updateMatrix_mem (c : ℤ) (indexes : List ℕ) (rows : ℕ) :
    ∀ (m : List (List ℤ)) (i0 : ℕ) (row : List ℤ), row ∈ updateMatrix c indexes rows i0 m →
      ∃ orow ∈ m, row.length = orow.length := by
  intro m
  induction m with
  | nil => intro i0 row h; simp [updateMatrix] at h
  | cons orow rest ih =>
    intro i0 row h
    rw [updateMatrix] at h
    rcases List.mem_cons.mp h with h | h
    · refine ⟨orow, by simp, ?_⟩
      rw [h]
      split
      · exact updateRow_length c _ orow
      · rfl
    · obtain ⟨orow2, hmem, hlen⟩ := ih (i0 + 1) row h
      exact ⟨orow2, by simp [hmem], hlen⟩

/-! ### Field preservation and cell-level behaviour of update -/

theorem update_columns (sk : CountMinSketch) (x : String) (c : ℤ) :
    (sk.update x c)._columns = sk._columns := rfl

theorem update_rows (sk : CountMinSketch) (x : String) (c : ℤ) :
    (sk.update x c)._rows = sk._rows := rfl

theorem update_seed (sk : CountMinSketch) (x : String) (c : ℤ) :
    (sk.update x c)._seed = sk._seed := rfl

theorem idxOf_update (sk : CountMinSketch) (x y : String) (c : ℤ) (i : ℕ) :
    idxOf (sk.update y c) x i = idxOf sk x i := rfl

theorem row_length (sk : CountMinSketch) (hwf : Wf sk) (i : ℕ) (hi : i < sk._rows) :
    (sk._matrix.getD i []).length = sk._columns :=
  hwf.2.2 _ (getD_mem _ _ _ (by rw [hwf.2.1]; exact hi))

theorem Wf_update (sk : CountMinSketch) (x : String) (c : ℤ) (hwf : Wf sk) :
    Wf (sk.update x c) := by
  refine ⟨hwf.1, ?_, ?_⟩
  · show (updateMatrix _ _ _ 0 sk._matrix).length = sk._rows
    rw [updateMatrix_length]
    exact hwf.2.1
  · intro row hrow
    obtain ⟨orow, hmem, hlen⟩ := updateMatrix_mem _ _ _ _ _ row hrow
    rw [hlen]
    exact hwf.2.2 orow hmem

theorem cell_update_self (sk : CountMinSketch) (y : String) (c : ℤ) (i : ℕ)
    (hwf : Wf sk) (hi : i < sk._rows) :
    cell (sk.update y c) i (idxOf sk y i) = cell sk i (idxOf sk y i) + c := by
  show ((updateMatrix c (getDistinctIndices y sk._columns sk._rows sk.seed)
      sk._rows 0 sk._matrix).getD i []).getD (idxOf sk y i) 0 = _
  rw [updateMatrix_getD]
  rw [if_pos (by simpa using hi)]
  have hzero : (0 : ℕ) + i = i := by omega
  rw [hzero]
  exact updateRow_getD_self c _ _ (by rw [row_length sk hwf i hi]; exact idxOf_lt sk y i hwf.1)

theorem cell_update_other (sk : CountMinSketch) (y : String) (c : ℤ) (i j : ℕ)
    (hj : j ≠ idxOf sk y i) :
    cell (sk.update y c) i j = cell sk i j := by
  show ((updateMatrix c (getDistinctIndices y sk._columns sk._rows sk.seed)
      sk._rows 0 sk._matrix).getD i []).getD j 0 = _
  rw [updateMatrix_getD]
  split
  · have hzero : (0 : ℕ) + i = i := by omega
    rw [hzero]
    exact updateRow_getD_ne c _ j _ hj
  · rfl

theorem cell_update_ge (sk : CountMinSketch) (y : String) (c : ℤ) (hc : 0 ≤ c) (i j : ℕ) :
    cell sk i j ≤ cell (sk.update y c) i j := by
  show _ ≤ ((updateMatrix c (getDistinctIndices y sk._columns sk._rows sk.seed)
      sk._rows 0 sk._matrix).getD i []).getD j 0
  rw [updateMatrix_getD]
  split
  · exact updateRow_getD_ge c hc _ j _
  · exact le_refl _

/-! ### The accumulation invariant behind the point-estimate bound -/

theorem cell_update_bump (sk : CountMinSketch) (x y : String) (c : ℤ) (i : ℕ)
    (hwf : Wf sk) (hi : i < sk._rows) (hc : 0 ≤ c) :
    cell sk i (idxOf sk x i) + (if y = x then c else 0) ≤
      cell (sk.update y c) i (idxOf sk x i) := by
  by_cases hxy : y = x
  · subst hxy
    rw [if_pos rfl, cell_update_self sk y c i hwf hi]
  · rw [if_neg hxy]
    by_cases hj : idxOf sk x i = idxOf sk y i
    · rw [hj, cell_update_self sk y c i hwf hi]
      linarith
    · rw [cell_update_other sk y c i _ hj]
      simp

theorem applyUpdates_columns :
    ∀ (ops : List (String × ℤ)) (sk : CountMinSketch),
      (applyUpdates sk ops)._columns = sk._columns := by
  intro ops
  induction ops with
  | nil => intro sk; rfl
  | cons op rest ih => intro sk; exact ih (sk.update op.1 op.2)

theorem applyUpdates_rows :
    ∀ (ops : List (String × ℤ)) (sk : CountMinSketch),
      (applyUpdates sk ops)._rows = sk._rows := by
  intro ops
  induction ops with
  | nil => intro sk; rfl
  | cons op rest ih => intro sk; exact ih (sk.update op.1 op.2)

theorem applyUpdates_seed :
    ∀ (ops : List (String × ℤ)) (sk : CountMinSketch),
      (applyUpdates sk ops)._seed = sk._seed := by
  intro ops
  induction ops with
  | nil => intro sk; rfl
  | cons op rest ih => intro sk; exact ih (sk.update op.1 op.2)

theorem cell_applyUpdates_ge (x : String) :
    ∀ (ops : List (String × ℤ)) (sk : CountMinSketch), Wf sk →
      (∀ op ∈ ops, 0 ≤ op.2) → ∀ i, i < sk._rows →
        cell sk i (idxOf sk x i) + trueCount x ops ≤
          cell (applyUpdates sk ops) i (idxOf sk x i) := by
  intro ops
  induction ops with
  | nil =>
    intro sk _ _ i _
    simp [applyUpdates, trueCount]
  | cons op rest ih =>
    intro sk hwf hops i hi
    obtain ⟨y, c⟩ := op
    have hc : 0 ≤ c := hops (y, c) (by simp)
    have hrest : ∀ o ∈ rest, 0 ≤ o.2 := fun o ho => hops o (by simp [ho])
    have happly : applyUpdates sk ((y, c) :: rest) = applyUpdates (sk.update y c) rest := rfl
    have hWf1 : Wf (sk.update y c) := Wf_update sk y c hwf
    have ihh := ih (sk.update y c) hWf1 hrest i hi
    rw [idxOf_update sk x y c i] at ihh
    have bump := cell_update_bump sk x y c i hwf hi hc
    have htc : trueCount x ((y, c) :: rest) = (if y = x then c else 0) + trueCount x rest := by
      simp [trueCount]
    rw [happly, htc]
    linarith

/-! ### foldl-min lemmas for count -/

theorem foldl_min_le_all (f : ℕ → WithTop ℤ) (a : WithTop ℤ) :
    ∀ (l : List ℕ) (b : WithTop ℤ), a ≤ b → (∀ i ∈ l, a ≤ f i) →
      a ≤ l.foldl (fun m i => min (f i) m) b := by
  intro l
  induction l with
  | nil => intro b hb _; simpa using hb
  | cons hd tl ih =>
    intro b hb h
    simp only [List.foldl_cons]
    exact ih (min (f hd) b) (le_min (h hd (by simp)) hb) (fun i hi => h i (by simp [hi]))

theorem foldl_min_mono (f g : ℕ → WithTop ℤ) :
    ∀ (l : List ℕ) (b1 b2 : WithTop ℤ), b1 ≤ b2 → (∀ i ∈ l, f i ≤ g i) →
      l.foldl (fun m i => min (f i) m) b1 ≤ l.foldl (fun m i => min (g i) m) b2 := by
  intro l
  induction l with
  | nil => intro b1 b2 hb _; simpa using hb
  | cons hd tl ih =>
    intro b1 b2 hb h
    simp only [List.foldl_cons]
    exact ih _ _ (min_le_min (h hd (by simp)) hb) (fun i hi => h i (by simp [hi]))

/-! ### Fresh sketches -/

theorem cell_new (w d s s2 i j : ℕ) : cell (withSeed (CountMinSketch.new w d s) s2) i j = 0 := by
  show ((List.replicate d (List.replicate w (0 : ℤ))).getD i []).getD j 0 = 0
  rw [getD_replicate]
  split
  · rw [getD_replicate]
    split <;> rfl
  · simp [List.getD]

theorem Wf_new (w d s s2 : ℕ) (hw : 0 < w) : Wf (withSeed (CountMinSketch.new w d s) s2) := by
  refine ⟨hw, by simp [withSeed, CountMinSketch.new], ?_⟩
  intro row hrow
  have : row = List.replicate w 0 := List.eq_of_mem_replicate hrow
  simp [this, withSeed, CountMinSketch.new]

/-! ### mergeRow and mergeMatrix lemmas -/

theorem mergeRow_length (orow : List ℤ) (cols : ℕ) :
    ∀ (row : List ℤ) (j0 : ℕ), (mergeRow orow cols j0 row).length = row.length := by
  intro row
  induction row with
  | nil => intro j0; simp [mergeRow]
  | cons v rest ih => intro j0; simp [mergeRow, ih (j0 + 1)]

theorem mergeRow_getD (orow : List ℤ) (cols : ℕ) :
    ∀ (row : List ℤ) (j0 j : ℕ), j < row.length →
      (mergeRow orow cols j0 row).getD j 0 =
        if j0 + j < cols then row.getD j 0 + orow.getD (j0 + j) 0 else row.getD j 0 := by
  intro row
  induction row with
  | nil => intro j0 j h; simp at h
  | cons v rest ih =>
    intro j0 j h
    cases j with
    | zero => simp [mergeRow, List.getD]
    | succ j =>
      have harith : j0 + 1 + j = j0 + (j + 1) := by omega
      have hj : j < rest.length := by simpa using Nat.lt_of_succ_lt_succ h
      simpa [mergeRow, List.getD, harith] using ih (j0 + 1) j hj

theorem mergeMatrix_getD (om : List (List ℤ)) (rows cols : ℕ) :
    ∀ (m : List (List ℤ)) (i0 i : ℕ),
      (mergeMatrix om rows cols i0 m).getD i [] =
        if i0 + i < rows then mergeRow (om.getD (i0 + i) []) cols 0 (m.getD i [])
        else m.getD i [] := by
  intro m
  induction m with
  | nil =>
    intro i0 i
    simp only [mergeMatrix, List.getD]
    split
    · simp [mergeRow]
    · rfl
  | cons row rest ih =>
    intro i0 i
    cases i with
    | zero => simp [mergeMatrix, List.getD]
    | succ i =>
      have harith : i0 + 1 + i = i0 + (i + 1) := by omega
      simpa [mergeMatrix, List.getD, harith] using ih (i0 + 1) i

theorem cell_mergeMatrix (a b : CountMinSketch) (hwa : Wf a) (i j : ℕ)
    (hi : i < a._rows) (hj : j < a._columns) :
    ((mergeMatrix b._matrix a._rows a._columns 0 a._matrix).getD i []).getD j 0 =
      cell a i j + cell b i j := by
  rw [mergeMatrix_getD]
  rw [if_pos (by simpa using hi)]
  have hzero : (0 : ℕ) + i = i := by omega
  rw [hzero]
  have hlen : j < (a._matrix.getD i []).length := by
    rw [row_length a hwa i hi]; exact hj
  rw [mergeRow_getD _ _ _ 0 j hlen]
  rw [if_pos (by simpa using hj)]
  simp [cell]

theorem mergeMatrix_length (om : List (List ℤ)) (rows cols : ℕ) :
    ∀ (m : List (List ℤ)) (i0 : ℕ), (mergeMatrix om rows cols i0 m).length = m.length := by
  intro m
  induction m with
  | nil => intro i0; simp [mergeMatrix]
  | cons row rest ih => intro i0; simp [mergeMatrix, ih (i0 + 1)]

/-! ### Claim theorems -/

/-- C1: for every Count-Min Sketch with at least one row (and a well-formed
positive number of columns), after any sequence of `update(element, c)`
operations whose weights are all nonnegative, `count(x)` is at least the
sum of the weights of the updates whose element equals `x`: the point
estimate never underestimates the true count. -/
theorem countMin_no_underestimate (w d s : ℕ) (ops : List (String × ℤ)) (x : String)
    (hw : 0 < w) (hd : 0 < d) (hops : ∀ op ∈ ops, 0 ≤ op.2) :
    ((trueCount x ops : ℤ) : WithTop ℤ) ≤
      (applyUpdates (withSeed (CountMinSketch.new w d 0) s) ops).count x := by
  have hwf : Wf (withSeed (CountMinSketch.new w d 0) s) := Wf_new w d 0 s hw
  have key : ∀ i, i < (withSeed (CountMinSketch.new w d 0) s)._rows →
      trueCount x ops ≤ cell (applyUpdates (withSeed (CountMinSketch.new w d 0) s) ops) i
        (idxOf (withSeed (CountMinSketch.new w d 0) s) x i) := by
    intro i hi
    have h := cell_applyUpdates_ge x ops (withSeed (CountMinSketch.new w d 0) s) hwf hops i hi
    have h0 : cell (withSeed (CountMinSketch.new w d 0) s) i
        (idxOf (withSeed (CountMinSketch.new w d 0) s) x i) = 0 := cell_new w d 0 s i _
    linarith
  simp only [idxOf, CountMinSketch.seed] at key
  simp only [CountMinSketch.count, CountMinSketch.seed, applyUpdates_rows,
    applyUpdates_columns, applyUpdates_seed]
  exact foldl_min_le_all _ _ _ ⊤ le_top
    (fun i hi => WithTop.coe_le_coe.mpr (key i (List.mem_range.mp hi)))

theorem countMin_no_underestimate_witness :
    (0 : ℕ) < 2 ∧ (0 : ℕ) < 1 ∧ (∀ op ∈ [(("a" : String), (1 : ℤ))], 0 ≤ op.2) ∧
    ((trueCount ("a") [(("a" : String), (1 : ℤ))] : ℤ) : WithTop ℤ) ≤
      (applyUpdates (withSeed (CountMinSketch.new 2 1 0) 0)
        [(("a" : String), (1 : ℤ))]).count ("a") :=
  ⟨by decide, by decide, by decide,
    countMin_no_underestimate 2 1 0 [(("a" : String), (1 : ℤ))] ("a")
      (by decide) (by decide) (by decide)⟩

/-- C6: a single `update` with a nonnegative weight never decreases
`count(x)`, for any element `x` (whether or not it is the updated one). -/
theorem count_monotone_update (sk : CountMinSketch) (x y : String) (c : ℤ)
    (hwf : Wf sk) (hc : 0 ≤ c) :
    sk.count x ≤ (sk.update y c).count x := by
  have hkey : ∀ i j, cell sk i j ≤ cell (sk.update y c) i j := cell_update_ge sk y c hc
  simp only [CountMinSketch.count, update_rows, update_columns, CountMinSketch.seed,
    update_seed]
  exact foldl_min_mono _ _ _ ⊤ ⊤ (le_refl _)
    (fun i _ => WithTop.coe_le_coe.mpr (hkey i _))

theorem count_monotone_update_witness :
    Wf ((CountMinSketch.new 2 1 0).update ("a") 1) ∧ (0 : ℤ) ≤ 1 ∧
    ((CountMinSketch.new 2 1 0).update ("a") 1).count ("a") ≤
      (((CountMinSketch.new 2 1 0).update ("a") 1).update ("a") 1).count ("a") :=
  ⟨by decide, by decide,
    count_monotone_update ((CountMinSketch.new 2 1 0).update ("a") 1) ("a") ("a") 1
      (by decide) (by decide)⟩

/-- C2: `update(x, c)` adds exactly `c` to `_N`, adds exactly `c` to the
single cell `M[i][h_i(x)]` of each of the `d` rows (where `h_i(x)` is the
i-th index derived from `x` and the seed), leaves every other cell
unchanged, keeps the matrix shape, and leaves `w`, `d` and the seed
untouched. -/
theorem update_spec (sk : CountMinSketch) (x : String) (c : ℤ) (hwf : Wf sk) :
    (sk.update x c)._N = sk._N + c ∧
    (sk.update x c)._matrix.length = sk._matrix.length ∧
    (∀ i, i < sk._rows →
      cell (sk.update x c) i (idxOf sk x i) = cell sk i (idxOf sk x i) + c) ∧
    (∀ i j, j ≠ idxOf sk x i → cell (sk.update x c) i j = cell sk i j) ∧
    (sk.update x c)._columns = sk._columns ∧ (sk.update x c)._rows = sk._rows ∧
    (sk.update x c)._seed = sk._seed := by
  refine ⟨rfl, ?_, ?_, ?_, rfl, rfl, rfl⟩
  · exact updateMatrix_length _ _ _ _ 0
  · intro i hi
    exact cell_update_self sk x c i hwf hi
  · intro i j hj
    exact cell_update_other sk x c i j hj

theorem update_spec_witness :
    Wf (CountMinSketch.new 3 2 0) ∧
    (((CountMinSketch.new 3 2 0).update ("a") 2)._N = (CountMinSketch.new 3 2 0)._N + 2 ∧
    ((CountMinSketch.new 3 2 0).update ("a") 2)._matrix.length =
      (CountMinSketch.new 3 2 0)._matrix.length ∧
    (∀ i, i < (CountMinSketch.new 3 2 0)._rows →
      cell ((CountMinSketch.new 3 2 0).update ("a") 2) i (idxOf (CountMinSketch.new 3 2 0) ("a") i) =
        cell (CountMinSketch.new 3 2 0) i (idxOf (CountMinSketch.new 3 2 0) ("a") i) + 2) ∧
    (∀ i j, j ≠ idxOf (CountMinSketch.new 3 2 0) ("a") i →
      cell ((CountMinSketch.new 3 2 0).update ("a") 2) i j = cell (CountMinSketch.new 3 2 0) i j) ∧
    ((CountMinSketch.new 3 2 0).update ("a") 2)._columns = (CountMinSketch.new 3 2 0)._columns ∧
    ((CountMinSketch.new 3 2 0).update ("a") 2)._rows = (CountMinSketch.new 3 2 0)._rows ∧
    ((CountMinSketch.new 3 2 0).update ("a") 2)._seed = (CountMinSketch.new 3 2 0)._seed) :=
  ⟨by decide, update_spec (CountMinSketch.new 3 2 0) ("a") 2 (by decide)⟩

/-- C9: the `seed` argument of the constructor has no effect: for every
`w`, `d` and seed value `s`, `new CountMinSketch(w, d, s)` is the very
same sketch as `new CountMinSketch(w, d)` (whose third argument defaults
to `getDefaultSeed`), and it carries the default seed rather than `s`. -/
theorem constructor_ignores_seed (w d s : ℕ) :
    CountMinSketch.new w d s = CountMinSketch.new w d getDefaultSeed ∧
    (CountMinSketch.new w d s)._seed = getDefaultSeed :=
  ⟨rfl, rfl⟩

/-- C4 (code bug): at the concrete failing input, a sketch holding one
update with weight 1, `clone()` reproduces the matrix cell-for-cell and
preserves the seed, but returns `_N = 0` instead of the receiver's
`_N = 1`: `clone` rebuilds via `merge`, which does not transfer `_N`, and
never copies `_N` afterwards. -/
theorem clone_resets_N :
    ((CountMinSketch.new 3 1 0).update ("a") 1)._N = 1 ∧
    (((CountMinSketch.new 3 1 0).update ("a") 1).clone)._N = 0 ∧
    (((CountMinSketch.new 3 1 0).update ("a") 1).clone)._matrix =
      ((CountMinSketch.new 3 1 0).update ("a") 1)._matrix ∧
    (((CountMinSketch.new 3 1 0).update ("a") 1).clone)._seed =
      ((CountMinSketch.new 3 1 0).update ("a") 1)._seed := by
  decide

/-- C5: the serialization round-trip: decoding the export of any sketch
`S` succeeds and yields a sketch with the same `count` for every element,
the same seed and the same `N` (indeed the decoded sketch equals `S`). -/
theorem fromJSON_saveAsJSON (sk : CountMinSketch) :
    ∃ sk2, CountMinSketch.fromJSON sk.saveAsJSON = Except.ok sk2 ∧
      (∀ x, sk2.count x = sk.count x) ∧ sk2._seed = sk._seed ∧ sk2._N = sk._N := by
  refine ⟨sk, ?_, fun x => rfl, rfl, rfl⟩
  rfl

/-- C3 (counterexample): two sketches with the same dimensions but
different seeds.  The claim requires `merge` to fail with an incompatible
shape error when the seeds differ, but the source compares only the
column and row counts: the merge succeeds and performs the element-wise
sum. -/
theorem merge_seed_mismatch_cex :
    (withSeed (CountMinSketch.new 2 1 0) 1)._seed ≠
      (withSeed (CountMinSketch.new 2 1 0) 2)._seed ∧
    ((withSeed (CountMinSketch.new 2 1 0) 1).merge (withSeed (CountMinSketch.new 2 1 0) 2)) =
      Except.ok (withSeed (CountMinSketch.new 2 1 0) 1) :=
  ⟨by decide, rfl⟩

/-- C3 (amended): `merge(other)` performs the element-wise sum into the
receiver exactly when the two sketches agree on `w` and `d`; when `w` or
`d` differ it fails with an error (and, the embedding being functional,
the receiver is returned unchanged only through the error).  The seed is
not compared. -/
theorem merge_dims_spec (a b : CountMinSketch) (hwa : Wf a) :
    (a._columns = b._columns → a._rows = b._rows →
      ∃ r, a.merge b = Except.ok r ∧
        r._columns = a._columns ∧ r._rows = a._rows ∧ r._N = a._N ∧ r._seed = a._seed ∧
        r._matrix.length = a._matrix.length ∧
        (∀ i j, i < a._rows → j < a._columns → cell r i j = cell a i j + cell b i j)) ∧
    ((a._columns ≠ b._columns ∨ a._rows ≠ b._rows) →
      ∃ e, a.merge b = Except.error e) := by
  constructor
  · intro hc hr
    refine ⟨{ a with _matrix := mergeMatrix b._matrix a._rows a._columns 0 a._matrix },
      ?_, rfl, rfl, rfl, rfl, ?_, ?_⟩
    · simp only [CountMinSketch.merge]
      rw [if_neg (by simpa using hc), if_neg (by simpa using hr)]
    · exact mergeMatrix_length _ _ _ _ 0
    · intro i j hi hj
      exact cell_mergeMatrix a b hwa i j hi hj
  · intro h
    by_cases hcc : a._columns = b._columns
    · rcases h with h | h
      · exact absurd hcc h
      · refine ⟨("Cannot merge two sketches with different number of rows"), ?_⟩
        simp only [CountMinSketch.merge]
        rw [if_neg (by simpa using hcc), if_pos h]
    · refine ⟨("Cannot merge two sketches with different number of columns"), ?_⟩
      simp only [CountMinSketch.merge]
      rw [if_pos hcc]

theorem merge_dims_spec_witness :
    Wf (CountMinSketch.new 2 1 0) ∧
    (∃ r, (CountMinSketch.new 2 1 0).merge ((CountMinSketch.new 2 1 0).update ("b") 2) =
        Except.ok r ∧
      r._columns = (CountMinSketch.new 2 1 0)._columns ∧
      r._rows = (CountMinSketch.new 2 1 0)._rows ∧
      r._N = (CountMinSketch.new 2 1 0)._N ∧
      r._seed = (CountMinSketch.new 2 1 0)._seed ∧
      r._matrix.length = (CountMinSketch.new 2 1 0)._matrix.length ∧
      (∀ i j, i < (CountMinSketch.new 2 1 0)._rows → j < (CountMinSketch.new 2 1 0)._columns →
        cell r i j = cell (CountMinSketch.new 2 1 0) i j +
          cell ((CountMinSketch.new 2 1 0).update ("b") 2) i j)) :=
  ⟨by decide,
    (merge_dims_spec (CountMinSketch.new 2 1 0) ((CountMinSketch.new 2 1 0).update ("b") 2)
      (by decide)).1 rfl rfl⟩

/-- C10: when the dimensions match, `merge` modifies only the receiver's
matrix: the receiver's `N`, seed, `w` and `d` come through unchanged (in
particular the other sketch's `N` is not added), and — the embedding being
purely functional — the argument sketch is untouched. -/
theorem merge_frame (a b : CountMinSketch) (hc : a._columns = b._columns)
    (hr : a._rows = b._rows) :
    ∃ r, a.merge b = Except.ok r ∧ r._N = a._N ∧ r._seed = a._seed ∧
      r._columns = a._columns ∧ r._rows = a._rows := by
  refine ⟨{ a with _matrix := mergeMatrix b._matrix a._rows a._columns 0 a._matrix },
    ?_, rfl, rfl, rfl, rfl⟩
  simp only [CountMinSketch.merge]
  rw [if_neg (by simpa using hc), if_neg (by simpa using hr)]

theorem merge_frame_witness :
    ((CountMinSketch.new 3 1 0).update ("a") 5)._columns = (CountMinSketch.new 3 1 0)._columns ∧
    ((CountMinSketch.new 3 1 0).update ("a") 5)._rows = (CountMinSketch.new 3 1 0)._rows ∧
    (∃ r, ((CountMinSketch.new 3 1 0).update ("a") 5).merge (CountMinSketch.new 3 1 0) =
        Except.ok r ∧
      r._N = ((CountMinSketch.new 3 1 0).update ("a") 5)._N ∧
      r._seed = ((CountMinSketch.new 3 1 0).update ("a") 5)._seed ∧
      r._columns = ((CountMinSketch.new 3 1 0).update ("a") 5)._columns ∧
      r._rows = ((CountMinSketch.new 3 1 0).update ("a") 5)._rows) :=
  ⟨by decide, by decide,
    merge_frame ((CountMinSketch.new 3 1 0).update ("a") 5) (CountMinSketch.new 3 1 0)
      rfl rfl⟩

/-- C7: for every `epsilon` and `delta` in `(0,1)`,
`create(epsilon, delta)` returns a sketch with exactly `w = ⌈e/epsilon⌉`
columns and `d = ⌈ln(1/delta)⌉` rows, whose matrix is all zeros and whose
`N` is 0. -/
theorem create_spec (epsilon delta : ℝ) (he0 : 0 < epsilon) (he1 : epsilon < 1)
    (hd0 : 0 < delta) (hd1 : delta < 1) :
    ((CountMinSketch.create epsilon delta)._columns : ℤ) = ⌈Real.exp 1 / epsilon⌉ ∧
    ((CountMinSketch.create epsilon delta)._rows : ℤ) = ⌈Real.log (1 / delta)⌉ ∧
    (CountMinSketch.create epsilon delta)._matrix =
      List.replicate (CountMinSketch.create epsilon delta)._rows
        (List.replicate (CountMinSketch.create epsilon delta)._columns 0) ∧
    (CountMinSketch.create epsilon delta)._N = 0 := by
  have hwpos : 0 < ⌈Real.exp 1 / epsilon⌉ :=
    Int.ceil_pos.mpr (div_pos (Real.exp_pos 1) he0)
  have hdpos : 0 < ⌈Real.log (1 / delta)⌉ :=
    Int.ceil_pos.mpr (Real.log_pos ((one_lt_div hd0).mpr hd1))
  refine ⟨?_, ?_, rfl, rfl⟩
  · exact Int.toNat_of_nonneg (le_of_lt hwpos)
  · exact Int.toNat_of_nonneg (le_of_lt hdpos)

theorem create_spec_witness :
    (0 : ℝ) < 1 / 2 ∧ (1 / 2 : ℝ) < 1 ∧
    (((CountMinSketch.create (1 / 2) (1 / 2))._columns : ℤ) = ⌈Real.exp 1 / (1 / 2 : ℝ)⌉ ∧
    ((CountMinSketch.create (1 / 2) (1 / 2))._rows : ℤ) = ⌈Real.log (1 / (1 / 2 : ℝ))⌉ ∧
    (CountMinSketch.create (1 / 2) (1 / 2))._matrix =
      List.replicate (CountMinSketch.create (1 / 2) (1 / 2))._rows
        (List.replicate (CountMinSketch.create (1 / 2) (1 / 2))._columns 0) ∧
    (CountMinSketch.create (1 / 2) (1 / 2))._N = 0) :=
  ⟨by norm_num, by norm_num,
    create_spec (1 / 2) (1 / 2) (by norm_num) (by norm_num) (by norm_num) (by norm_num)⟩

/-- C8: the import fails with the format error exactly when the payload's
type tag differs from the expected one or one of the required fields
`_matrix`, `_seed`, `_N`, `_rows`, `_columns` is missing; on a well-formed
payload it succeeds and returns a sketch. -/
theorem fromJSON_error_iff (json : CMSExport) :
    (CountMinSketch.fromJSON json =
        Except.error
          ("Cannot create a CountMinSketch from a JSON export which does not represent a count-min sketch") ↔
      (json.type ≠ ("CountMinSketch") ∨ json._matrix = none ∨ json._seed = none ∨
        json._N = none ∨ json._rows = none ∨ json._columns = none)) ∧
    ((∃ sk, CountMinSketch.fromJSON json = Except.ok sk) ↔
      ¬(json.type ≠ ("CountMinSketch") ∨ json._matrix = none ∨ json._seed = none ∨
        json._N = none ∨ json._rows = none ∨ json._columns = none)) := by
  obtain ⟨t, m, s, n, r, c⟩ := json
  cases m <;> cases s <;> cases n <;> cases r <;> cases c <;>
    by_cases ht : t = ("CountMinSketch") <;>
      simp [CountMinSketch.fromJSON, ht]
